import Mathlib

/-!
Verification of the ring-vrf protocol core (files vrf.rs, prover.rs,
generator.rs) against its natural-language specification.

Shallow embedding conventions:

* The curve engine is generic in the source (a trait bound
  JubjubEngine / JubjubEngineWithParams), so the embedding is generic as
  well: the full point group Point(E, Unknown) is a type parameter P with
  an AddCommGroup instance, and the remaining engine operations that the
  source obtains from external libraries (merlin transcripts, ChaCha-based
  point sampling, the curve point codec, the field size) are bundled in a
  structure JubjubEngine.
* A merlin or SigningTranscript value is modelled by its log: the list of
  operations applied to it so far.  Squeezing challenge bytes is a pure
  function of that log (merlin is deterministic), supplied by the engine.
* Scalars (the field Fs of the source) are ZMod e.r where e.r is the
  field size held by the engine; Point::mul with a scalar is
  multiplication of the point by the canonical representative of the
  scalar, which is what the bit-wise double-and-add of the library does.
* Machine bytes are Fin 256; byte strings are lists of bytes; labels are
  Lean strings standing for the byte-string literals of the source.
* Rust panics (assert! and unwrap) are explicit constructors or Option
  none, never masked.
-/

/-- One operation applied to a transcript: creation with a domain label,
appending a message, committing bytes, or committing a curve point.  A
transcript value is its chronological log of operations. -/
inductive TOp (P : Type) where
  | new (label : String)
  | appendMessage (label : String) (msg : List (Fin 256))
  | commitBytes (label : String) (msg : List (Fin 256))
  | commitPoint (label : String) (pt : P)
deriving DecidableEq

/-- A transcript (merlin Transcript or SigningTranscript) modelled by the
log of operations applied to it, oldest first. -/
abbrev Transcript (P : Type) := List (TOp P)

/-- The engine bundle: everything the generic source code obtains from the
external curve, transcript and codec libraries.  `r` is the size of the
scalar field Fs; `cofactor` the curve cofactor; `challengeBytes t l n`
the deterministic bytes merlin squeezes from transcript state `t` under
label `l` when `n` bytes are requested; `pointRand s` the point obtained
by Point::rand from a ChaCha stream seeded with `s`; `challengeScalar`
models the SigningTranscript::challenge_scalar method (transcript layer,
not in src/); `pointRead`/`pointWrite` the curve library's canonical
point codec (Point::read / Point::write), with `pointRead` returning none
exactly on the encodings the decoder rejects. -/
structure JubjubEngine (P : Type) where
  r : Nat
  cofactor : Nat
  challengeBytes : Transcript P → String → Nat → List (Fin 256)
  pointRand : List (Fin 256) → P
  challengeScalar : Transcript P → String → ZMod r
  pointRead : List (Fin 256) → Option P
  pointWrite : P → List (Fin 256)

variable {P : Type} [AddCommGroup P]

/-- Point::mul: multiply a point by a scalar of Fs, i.e. by the natural
number that is the scalar's canonical representative. -/
def pointMul (e : JubjubEngine P) (p : P) (z : ZMod e.r) : P :=
  z.val • p

/-- mul_by_cofactor: multiply a point by the curve cofactor. -/
def mulByCofactor (e : JubjubEngine P) (p : P) : P :=
  e.cofactor • p

/-- SecretKey: holds the secret scalar `key` (field sk.key of the source). -/
structure SecretKey (r : Nat) where
  key : ZMod r
deriving DecidableEq

/-- PublicKey: a curve point (tuple field 0 of the source). -/
structure PublicKey (P : Type) where
  pt : P
deriving DecidableEq

/-- VRFInput: a curve point used as the VRF evaluation point. -/
structure VRFInput (P : Type) where
  pt : P
deriving DecidableEq

/-- VRFOutput: a curve point, the VRF result. -/
structure VRFOutput (P : Type) where
  pt : P
deriving DecidableEq

/-- VRFInOut: a paired VRF input and output. -/
structure VRFInOut (P : Type) where
  input : VRFInput P
  output : VRFOutput P
deriving DecidableEq

/-- VRFInput::new_malleable: squeeze 32 challenge bytes from the
transcript under label "vrf-input", seed a ChaCha stream from them,
sample a point from the stream (VRFInput::from_rng) and clear its
cofactor. -/
def VRFInput.new_malleable (e : JubjubEngine P) (t : Transcript P) : VRFInput P :=
  VRFInput.mk (mulByCofactor e (e.pointRand (e.challengeBytes t "vrf-input" 32)))

/-- VRFInput::new_nonmalleable: commit the public key to the transcript
under label "vrf-nm-pk", then delegate to the malleable derivation. -/
def VRFInput.new_nonmalleable (e : JubjubEngine P) (t : Transcript P)
    (publickey : PublicKey P) : VRFInput P :=
  VRFInput.new_malleable e (t ++ [TOp.commitPoint "vrf-nm-pk" publickey.pt])

/-- VRFInput::to_output: output = input point multiplied by sk.key. -/
def VRFInput.to_output (e : JubjubEngine P) (i : VRFInput P)
    (sk : SecretKey e.r) : VRFOutput P :=
  VRFOutput.mk (pointMul e i.pt sk.key)

/-- VRFInput::to_inout: pair the input with its output under sk. -/
def VRFInput.to_inout (e : JubjubEngine P) (i : VRFInput P)
    (sk : SecretKey e.r) : VRFInOut P :=
  VRFInOut.mk i (i.to_output e sk)

/-- VRFOutput::read: decode a point with the curve library's decoder;
the io error of the source is Option.none here, produced exactly when
the decoder rejects the bytes. -/
def VRFOutput.read (e : JubjubEngine P) (b : List (Fin 256)) : Option (VRFOutput P) :=
  (e.pointRead b).map VRFOutput.mk

/-- VRFOutput::write: encode the point with the curve library's encoder. -/
def VRFOutput.write (e : JubjubEngine P) (o : VRFOutput P) : List (Fin 256) :=
  e.pointWrite o.pt

/-- VRFInOut::commit: commit the input point under label "vrf-in" and
the output point under label "vrf-out". -/
def VRFInOut.commit (p : VRFInOut P) (t : Transcript P) : Transcript P :=
  t ++ [TOp.commitPoint "vrf-in" p.input.pt, TOp.commitPoint "vrf-out" p.output.pt]

/-- VRFInOut::make_bytes: open a fresh transcript labelled "VRFResult",
append the context under the empty label, commit the pair, then squeeze
the requested number of challenge bytes under the empty label. -/
def VRFInOut.make_bytes (e : JubjubEngine P) (p : VRFInOut P)
    (context : List (Fin 256)) (n : Nat) : List (Fin 256) :=
  let t : Transcript P := [TOp.new "VRFResult"]
  let t := t ++ [TOp.appendMessage "" context]
  let t := p.commit t
  e.challengeBytes t "" n

/-- Little-endian value of up to the first 8 bytes of a byte list, as
u64::from_le_bytes does on an 8-byte slice. -/
def le64 (s : List (Fin 256)) : Nat :=
  (s.take 8).foldr (fun b acc => b.val + 256 * acc) 0

/-- The 128-bit integer challenge_scalar_128 assembles from the 16
squeezed bytes: the first 8 bytes (as a little-endian u64) shifted left
by 64 (FsRepr::shl), plus the next 8 bytes (add_nocarry: no carry can
occur since the low limb is zero after the shift). -/
def chalVal (e : JubjubEngine P) (t : Transcript P) : Nat :=
  let s := e.challengeBytes t "" 16
  le64 s * 2 ^ 64 + le64 (s.drop 8)

/-- challenge_scalar_128: squeeze 16 bytes under the empty label,
assemble the 128-bit repr, and run Fs::from_repr, which succeeds exactly
when the repr is below the field size; the unwrap of the source panics
otherwise, modelled by none. -/
def challenge_scalar_128 (e : JubjubEngine P) (t : Transcript P) : Option (ZMod e.r) :=
  if chalVal e t < e.r then some ((chalVal e t : ZMod e.r)) else none

/-- Outcome of vrfs_merge.  The source can only produce `panicked` (the
assert! on an empty list, or the unwrap in challenge_scalar_128) or `ok`;
the `invalidArgument` constructor exists so that the InvalidArgument-class
error return demanded by the specification is expressible, which is what
shows the source never produces it. -/
inductive MergeOutcome (α : Type) where
  | panicked
  | invalidArgument
  | ok (a : α)
deriving DecidableEq

/-- The base transcript of vrfs_merge: a transcript opened with domain
label "MergeVRFs" into which every pair is committed in list order. -/
def mergeBase (ps : List (VRFInOut P)) : Transcript P :=
  ps.foldl (fun t p => p.commit t) [TOp.new "MergeVRFs"]

/-- The closure `go` of vrfs_merge: fold over the pairs, and for each
pair clone the base transcript, commit the pair again into the clone,
squeeze a 128-bit challenge scalar z from the clone, and add z times the
pair's input (io = true) or output (io = false) point to the
accumulator, which starts at the zero point.  The unwrap inside
challenge_scalar_128 makes each step partial, hence the Option fold. -/
def vrfsMergeGo (e : JubjubEngine P) (t : Transcript P) (ps : List (VRFInOut P))
    (io : Bool) : Option P :=
  List.foldlM
    (fun acc p =>
      Option.map
        (fun z => acc + pointMul e (if io then p.input.pt else p.output.pt) z)
        (challenge_scalar_128 e (p.commit t)))
    0 ps

/-- vrfs_merge: assert the list is non-empty (panicking otherwise),
build the base transcript, then run the two accumulation passes — the
input pass and the output pass — over the same list, and pair the two
sums as the merged VRFInOut.  A panic of the unwrap inside either pass
is also `panicked`. -/
def vrfs_merge (e : JubjubEngine P) (ps : List (VRFInOut P)) :
    MergeOutcome (VRFInOut P) :=
  if 0 < ps.length then
    let t := mergeBase ps
    match vrfsMergeGo e t ps true, vrfsMergeGo e t ps false with
    | some i, some o => MergeOutcome.ok (VRFInOut.mk (VRFInput.mk i) (VRFOutput.mk o))
    | _, _ => MergeOutcome.panicked
  else MergeOutcome.panicked

/-- The per-pair challenge z of step 2 of the merge: clone the base
transcript, commit the pair again, squeeze 128 bits, read as a scalar. -/
def mergeChallenge (e : JubjubEngine P) (ps : List (VRFInOut P))
    (p : VRFInOut P) : ZMod e.r :=
  ((chalVal e (p.commit (mergeBase ps)) : ZMod e.r))

/-- An authentication path for ring membership, the list of sibling data
along the path; its length is the tree depth.  Sibling data is opaque to
this core (type parameter). -/
abbrev AuthPath (Sib : Type) := List Sib

/-- Modelled from the spec: the Ring VRF circuit type of circuit.rs is
not in src/; per the specification's circuit interface it is a
witness-accepting type carrying the ring depth and optional witness
fields (secret key, VRF input point, extra-message scalar,
authentication path), with all fields unset for parameter generation and
all set for proving. -/
structure RingVRF (P : Type) (r : Nat) (Sib : Type) where
  depth : Nat
  sk : Option (SecretKey r)
  vrf_input : Option P
  extra : Option (ZMod r)
  auth_path : Option (AuthPath Sib)

/-- SecretKey::ring_vrf_prove: build the circuit instance — cofactor
clearing applied again to the supplied input point, the extra-message
scalar squeezed from the extra transcript under label "extra-msg", every
witness field set — and hand it to the backend's randomized proof
generation (groth16::create_random_proof), whose result, error included,
is returned unchanged.  The backend and its randomness source are
external collaborators, passed as parameters. -/
def ring_vrf_prove {Sib PK Pf SErr Rng : Type} (e : JubjubEngine P)
    (backend : RingVRF P e.r Sib → PK → Rng → Except SErr Pf)
    (sk : SecretKey e.r) (vrf_input : VRFInput P) (extra : Transcript P)
    (auth_path : AuthPath Sib) (proving_key : PK) (rng : Rng) : Except SErr Pf :=
  backend
    (RingVRF.mk auth_path.length (some sk)
      (some (mulByCofactor e vrf_input.pt))
      (some (e.challengeScalar extra "extra-msg"))
      (some auth_path))
    proving_key rng

/-- SecretKey::ring_vrf_sign_checked: prove for an already-computed
pair, returning its output component together with the proof.  rng0
models the rand_hack() randomness source of the source. -/
def ring_vrf_sign_checked {Sib PK Pf SErr Rng : Type} (e : JubjubEngine P)
    (backend : RingVRF P e.r Sib → PK → Rng → Except SErr Pf) (rng0 : Rng)
    (sk : SecretKey e.r) (inout : VRFInOut P) (extra : Transcript P)
    (auth_path : AuthPath Sib) (proving_key : PK) :
    Except SErr (VRFOutput P × Pf) :=
  (ring_vrf_prove e backend sk inout.input extra auth_path proving_key rng0).map
    (fun proof => (inout.output, proof))

/-- SecretKey::ring_vrf_sign_after_check: compute the VRFInOut first (no
proof work), run the check on it; if the check yields no extra-message
transcript, return Ok(None); otherwise prove for the pair with that
extra message.  The check's VRFExtraMessage result is modelled from the
spec (that trait is not in src/) as an optional extra transcript. -/
def ring_vrf_sign_after_check {Sib PK Pf SErr Rng : Type} (e : JubjubEngine P)
    (backend : RingVRF P e.r Sib → PK → Rng → Except SErr Pf) (rng0 : Rng)
    (sk : SecretKey e.r) (input : VRFInput P)
    (check : VRFInOut P → Option (Transcript P))
    (auth_path : AuthPath Sib) (proving_key : PK) :
    Except SErr (Option (VRFOutput P × Pf)) :=
  let inout := input.to_inout e sk
  match check inout with
  | some extra =>
      (ring_vrf_sign_checked e backend rng0 sk inout extra auth_path proving_key).map some
  | none => Except.ok none

/-- generate_crs: instantiate the Ring VRF circuit with the given depth
and every witness field unset, then run the external backend's parameter
generation (groth16::generate_random_parameters) with the randomness
source; its result is returned unchanged.  The source's field name for
the path witness is copath here. -/
def generate_crs {r : Nat} {Sib Crs SErr Rng : Type}
    (backendGen : RingVRF P r Sib → Rng → Except SErr Crs) (rng : Rng)
    (depth : Nat) : Except SErr Crs :=
  backendGen (RingVRF.mk depth none none none none) rng

/-- The order of the prime-order subgroup of Jubjub, the size of the
scalar field Fs of the only engine the source is instantiated with. -/
def rFs : Nat := 6554484396890773809930967563523245729705921265872317281365359162392183254199

/-- A byte from a natural number, reducing modulo 256. -/
def byteOfNat (m : Nat) : Fin 256 :=
  Fin.mk (m % 256) (Nat.mod_lt _ (by norm_num))

/-- A small concrete engine used to evaluate the definitions on closed
inputs: points are ZMod 5, the scalar field has the Jubjub size, the
challenge bytes encode the transcript length in byte 8 (so distinct
transcript lengths give distinct challenges and small scalar values),
the point sampler reads byte 8 of the seed, and the point codec encodes
a point as its single canonical byte. -/
def egW : JubjubEngine (ZMod 5) where
  r := rFs
  cofactor := 8
  challengeBytes := fun t _ _ =>
    List.replicate 8 (0 : Fin 256) ++ byteOfNat t.length :: List.replicate 7 (0 : Fin 256)
  pointRand := fun s => (((s.getD 8 0).val : ZMod 5))
  challengeScalar := fun t _ => ((t.length : ZMod rFs))
  pointRead := fun b =>
    match b with
    | [x] => if x.val < 5 then some ((x.val : ZMod 5)) else none
    | _ => none
  pointWrite := fun p => [Fin.mk p.val (lt_trans (ZMod.val_lt p) (by norm_num))]

/-- The concrete codec of egW is canonical: whatever the decoder
accepts, the encoder writes back verbatim. -/
lemma egW_canonical :
    ∀ b p, egW.pointRead b = some p → egW.pointWrite p = b := by
  intro b p h
  match b with
  | [] => simp [egW] at h
  | x :: y :: rest => simp [egW] at h
  | [x] =>
      simp only [egW] at h ⊢
      by_cases hx : x.val < 5
      · rw [if_pos hx] at h
        obtain rfl : ((x.val : ZMod 5)) = p := Option.some.inj h
        have hv : ((x.val : ZMod 5)).val = x.val := by
          rw [ZMod.val_natCast]
          exact Nat.mod_eq_of_lt hx
        simp [hv]
      · rw [if_neg hx] at h
        exact absurd h (by simp)

/-- Bytes accumulated little-endian are bounded by 256 to the length. -/
lemma foldr_byte_lt (l : List (Fin 256)) :
    l.foldr (fun b acc => b.val + 256 * acc) 0 < 256 ^ l.length := by
  induction l with
  | nil => simp
  | cons b l ih =>
      simp only [List.foldr_cons, List.length_cons, pow_succ]
      have hb := b.isLt
      omega

/-- The little-endian value of at most 8 bytes is below 2 to the 64. -/
lemma le64_lt (s : List (Fin 256)) : le64 s < 2 ^ 64 := by
  have h1 := foldr_byte_lt (s.take 8)
  have h2 : (256 : Nat) ^ (s.take 8).length ≤ 256 ^ 8 := by
    apply Nat.pow_le_pow_right (by norm_num)
    simpa using List.length_take_le 8 s
  calc le64 s < 256 ^ (s.take 8).length := h1
    _ ≤ 256 ^ 8 := h2
    _ = 2 ^ 64 := by norm_num

/-- The 128-bit repr assembled by challenge_scalar_128 is below 2 to the
128: no shift-and-add overflow, and no carry in add_nocarry. -/
lemma chalVal_lt (e : JubjubEngine P) (t : Transcript P) :
    chalVal e t < 2 ^ 128 := by
  have hx := le64_lt (e.challengeBytes t "" 16)
  have hy := le64_lt ((e.challengeBytes t "" 16).drop 8)
  simp only [chalVal]
  have h64 : (2 : Nat) ^ 64 = 18446744073709551616 := by norm_num
  have h128 : (2 : Nat) ^ 128 = 340282366920938463463374607431768211456 := by norm_num
  rw [h64] at hx hy ⊢
  rw [h128]
  nlinarith

/-- When the scalar field has at least 2 to the 128 elements (as Fs
does), from_repr always succeeds and challenge_scalar_128 returns the
assembled value as a scalar. -/
lemma challenge_scalar_128_eq (e : JubjubEngine P) (t : Transcript P)
    (h128 : 2 ^ 128 ≤ e.r) :
    challenge_scalar_128 e t = some ((chalVal e t : ZMod e.r)) := by
  unfold challenge_scalar_128
  rw [if_pos (lt_of_lt_of_le (chalVal_lt e t) h128)]

/-- Folding the pair commitments over any starting transcript appends
the per-pair commitment operations in list order. -/
lemma merge_commit_fold (ps : List (VRFInOut P)) :
    ∀ t : Transcript P,
      ps.foldl (fun t p => p.commit t) t
        = t ++ ps.flatMap
            (fun p => [TOp.commitPoint "vrf-in" p.input.pt,
                       TOp.commitPoint "vrf-out" p.output.pt]) := by
  induction ps with
  | nil => intro t; simp
  | cons p ps ih =>
      intro t
      rw [List.foldl_cons, ih]
      simp [VRFInOut.commit]

/-- The base transcript of the merge is the "MergeVRFs" domain label
followed by every pair's input/output commitments in list order. -/
lemma mergeBase_eq (ps : List (VRFInOut P)) :
    mergeBase ps
      = TOp.new "MergeVRFs" :: ps.flatMap
          (fun p => [TOp.commitPoint "vrf-in" p.input.pt,
                     TOp.commitPoint "vrf-out" p.output.pt]) := by
  rw [mergeBase, merge_commit_fold]
  rfl

/-- With a scalar field of at least 2 to the 128 elements, one
accumulation pass of the merge computes the random linear combination of
the selected points, starting from any accumulator. -/
lemma vrfsMergeGo_fold (e : JubjubEngine P) (t : Transcript P) (io : Bool)
    (h128 : 2 ^ 128 ≤ e.r) :
    ∀ (ps : List (VRFInOut P)) (acc : P),
      List.foldlM
        (fun acc p =>
          Option.map
            (fun z => acc + pointMul e (if io then p.input.pt else p.output.pt) z)
            (challenge_scalar_128 e (p.commit t))) acc ps
      = some (acc + (ps.map (fun p =>
          pointMul e (if io then p.input.pt else p.output.pt)
            ((chalVal e (p.commit t) : ZMod e.r)))).sum) := by
  intro ps
  induction ps with
  | nil => intro acc; simp
  | cons p ps ih =>
      intro acc
      rw [List.foldlM_cons, challenge_scalar_128_eq e _ h128]
      show List.foldlM
          (fun acc p =>
            Option.map
              (fun z => acc + pointMul e (if io then p.input.pt else p.output.pt) z)
              (challenge_scalar_128 e (p.commit t)))
          (acc + pointMul e (if io then p.input.pt else p.output.pt)
            ((chalVal e (p.commit t) : ZMod e.r))) ps = _
      rw [ih]
      simp only [List.map_cons, List.sum_cons, add_assoc]

/-- The input pass (io = true) and output pass (io = false) of
vrfs_merge, as random linear combinations. -/
lemma vrfsMergeGo_eq (e : JubjubEngine P) (t : Transcript P) (io : Bool)
    (ps : List (VRFInOut P)) (h128 : 2 ^ 128 ≤ e.r) :
    vrfsMergeGo e t ps io
      = some ((ps.map (fun p =>
          pointMul e (if io then p.input.pt else p.output.pt)
            ((chalVal e (p.commit t) : ZMod e.r)))).sum) := by
  unfold vrfsMergeGo
  rw [vrfsMergeGo_fold e t io h128 ps 0, zero_add]

/-- When every pair satisfies output = input times k, the output pass of
the merge is the input pass scaled by k, for any accumulator: the same
challenge z is used in both passes, and scalar multiplications commute. -/
lemma vrfsMergeGo_scale (e : JubjubEngine P) (t : Transcript P) (k : ZMod e.r) :
    ∀ (ps : List (VRFInOut P)),
      (∀ p ∈ ps, p.output.pt = pointMul e p.input.pt k) →
      ∀ acc : P,
      List.foldlM
        (fun acc p =>
          Option.map (fun z => acc + pointMul e p.output.pt z)
            (challenge_scalar_128 e (p.commit t))) (pointMul e acc k) ps
      = Option.map (fun x => pointMul e x k)
          (List.foldlM
            (fun acc p =>
              Option.map (fun z => acc + pointMul e p.input.pt z)
                (challenge_scalar_128 e (p.commit t))) acc ps) := by
  intro ps
  induction ps with
  | nil => intro _ acc; simp
  | cons p ps ih =>
      intro hrel acc
      rw [List.foldlM_cons, List.foldlM_cons]
      cases hc : challenge_scalar_128 e (p.commit t) with
      | none => simp
      | some z =>
          have hstep : pointMul e acc k + pointMul e p.output.pt z
              = pointMul e (acc + pointMul e p.input.pt z) k := by
            have hp := hrel p (List.mem_cons_self p ps)
            simp only [pointMul, hp, smul_add, smul_smul]
            rw [Nat.mul_comm]
          show List.foldlM
              (fun acc p =>
                Option.map (fun z => acc + pointMul e p.output.pt z)
                  (challenge_scalar_128 e (p.commit t)))
              (pointMul e acc k + pointMul e p.output.pt z) ps
            = Option.map (fun x => pointMul e x k)
                (List.foldlM
                  (fun acc p =>
                    Option.map (fun z => acc + pointMul e p.input.pt z)
                      (challenge_scalar_128 e (p.commit t)))
                  (acc + pointMul e p.input.pt z) ps)
          rw [hstep]
          exact ih (fun q hq => hrel q (List.mem_cons_of_mem p hq))
            (acc + pointMul e p.input.pt z)

/-- The output pass of vrfs_merge equals the input pass scaled by the
common secret scalar. -/
lemma vrfsMergeGo_false_eq (e : JubjubEngine P) (t : Transcript P)
    (k : ZMod e.r) (ps : List (VRFInOut P))
    (hrel : ∀ p ∈ ps, p.output.pt = pointMul e p.input.pt k) :
    vrfsMergeGo e t ps false
      = Option.map (fun x => pointMul e x k) (vrfsMergeGo e t ps true) := by
  have h0 : (0 : P) = pointMul e 0 k := by simp [pointMul]
  have h := vrfsMergeGo_scale e t k ps hrel 0
  rw [← h0] at h
  unfold vrfsMergeGo
  simp only [if_pos, if_neg, Bool.false_eq_true, if_false, if_true]
  exact h

/-- The input pass of vrfs_merge is the z-weighted sum of the inputs. -/
lemma vrfsMergeGo_input_sum (e : JubjubEngine P) (t : Transcript P)
    (ps : List (VRFInOut P)) (h128 : 2 ^ 128 ≤ e.r) :
    vrfsMergeGo e t ps true
      = some ((ps.map (fun p =>
          pointMul e p.input.pt ((chalVal e (p.commit t) : ZMod e.r)))).sum) := by
  rw [vrfsMergeGo_eq e t true ps h128]
  simp

/-- The output pass of vrfs_merge is the z-weighted sum of the outputs. -/
lemma vrfsMergeGo_output_sum (e : JubjubEngine P) (t : Transcript P)
    (ps : List (VRFInOut P)) (h128 : 2 ^ 128 ≤ e.r) :
    vrfsMergeGo e t ps false
      = some ((ps.map (fun p =>
          pointMul e p.output.pt ((chalVal e (p.commit t) : ZMod e.r)))).sum) := by
  rw [vrfsMergeGo_eq e t false ps h128]
  simp

/-- Claim C10: challenge_scalar_128 is total whenever the scalar field
has at least 2 to the 128 elements (as the Jubjub Fs does): the 128-bit
integer assembled from the 16 squeezed bytes — the low 64 bits shifted
left by 64 plus the next 64 bits, with no carry — is strictly below the
scalar-field modulus, so from_repr(..).unwrap() never reaches its panic
branch and the squeezed scalar is returned. -/
theorem challenge_scalar_128_total (e : JubjubEngine P) (t : Transcript P)
    (h128 : 2 ^ 128 ≤ e.r) :
    chalVal e t < 2 ^ 128
    ∧ chalVal e t < e.r
    ∧ challenge_scalar_128 e t = some ((chalVal e t : ZMod e.r)) :=
  ⟨chalVal_lt e t, lt_of_lt_of_le (chalVal_lt e t) h128,
    challenge_scalar_128_eq e t h128⟩

/-- Claim C10 witness: at the concrete engine (whose scalar field has
the Jubjub size) and the empty transcript, the theorem applies and the
squeeze succeeds. -/
theorem challenge_scalar_128_total_witness :
    chalVal egW ([] : Transcript (ZMod 5)) < 2 ^ 128
    ∧ chalVal egW ([] : Transcript (ZMod 5)) < egW.r
    ∧ challenge_scalar_128 egW ([] : Transcript (ZMod 5))
        = some ((chalVal egW ([] : Transcript (ZMod 5)) : ZMod egW.r)) :=
  challenge_scalar_128_total egW [] (by decide)

/-- Claim C2 counterexample: on the empty list vrfs_merge hits the
assert! and panics; it does not return the InvalidArgument-class error
the claim describes. -/
theorem vrfs_merge_empty_counterexample :
    vrfs_merge egW ([] : List (VRFInOut (ZMod 5))) = MergeOutcome.panicked
    ∧ vrfs_merge egW ([] : List (VRFInOut (ZMod 5)))
        ≠ MergeOutcome.invalidArgument := by
  exact ⟨rfl, by decide⟩

/-- Claim C2 as amended: merging an empty list panics (the assert! of
the source) rather than returning an InvalidArgument-class error, and
for every non-empty list — given a scalar field of at least 2 to the 128
elements, so the challenge squeeze cannot itself panic — vrfs_merge
returns a merged pair. -/
theorem vrfs_merge_empty_contract (e : JubjubEngine P)
    (ps : List (VRFInOut P)) (h128 : 2 ^ 128 ≤ e.r) :
    vrfs_merge e ([] : List (VRFInOut P)) = MergeOutcome.panicked
    ∧ (ps ≠ [] → ∃ io, vrfs_merge e ps = MergeOutcome.ok io) := by
  constructor
  · rfl
  · intro hne
    have hlen : 0 < ps.length := List.length_pos.mpr hne
    refine ⟨VRFInOut.mk
      (VRFInput.mk ((ps.map (fun p =>
        pointMul e p.input.pt
          ((chalVal e (p.commit (mergeBase ps)) : ZMod e.r)))).sum))
      (VRFOutput.mk ((ps.map (fun p =>
        pointMul e p.output.pt
          ((chalVal e (p.commit (mergeBase ps)) : ZMod e.r)))).sum)), ?_⟩
    simp only [vrfs_merge, if_pos hlen]
    rw [vrfsMergeGo_input_sum e _ ps h128, vrfsMergeGo_output_sum e _ ps h128]

/-- Claim C2 witness: the amended contract at the concrete engine and a
one-element list. -/
theorem vrfs_merge_empty_contract_witness :
    vrfs_merge egW ([] : List (VRFInOut (ZMod 5))) = MergeOutcome.panicked
    ∧ ([VRFInOut.mk (VRFInput.mk 2) (VRFOutput.mk (1 : ZMod 5))] ≠
        ([] : List (VRFInOut (ZMod 5))) →
       ∃ io, vrfs_merge egW [VRFInOut.mk (VRFInput.mk 2) (VRFOutput.mk (1 : ZMod 5))]
          = MergeOutcome.ok io) :=
  vrfs_merge_empty_contract egW
    [VRFInOut.mk (VRFInput.mk 2) (VRFOutput.mk (1 : ZMod 5))] (by decide)

/-- Claim C3: for every non-empty list (over a scalar field with at
least 2 to the 128 elements, so the squeezes succeed), vrfs_merge
follows exactly the described steps: the base transcript is opened with
label "MergeVRFs" and every pair's input/output commitment is appended
in list order; the challenge z of pair p is squeezed (as a 128-bit
scalar, with the squeeze succeeding) from a clone of that state into
which p is committed again; and the result is the ok pair of the two
separate accumulation passes, the z-weighted sum of the inputs and the
z-weighted sum of the outputs, with the same z applied in both. -/
theorem vrfs_merge_steps (e : JubjubEngine P) (ps : List (VRFInOut P))
    (hne : ps ≠ []) (h128 : 2 ^ 128 ≤ e.r) :
    mergeBase ps
      = TOp.new "MergeVRFs" :: ps.flatMap
          (fun p => [TOp.commitPoint "vrf-in" p.input.pt,
                     TOp.commitPoint "vrf-out" p.output.pt])
    ∧ (∀ p : VRFInOut P,
        challenge_scalar_128 e (p.commit (mergeBase ps))
          = some (mergeChallenge e ps p))
    ∧ vrfs_merge e ps
        = MergeOutcome.ok
            (VRFInOut.mk
              (VRFInput.mk ((ps.map (fun p =>
                pointMul e p.input.pt (mergeChallenge e ps p))).sum))
              (VRFOutput.mk ((ps.map (fun p =>
                pointMul e p.output.pt (mergeChallenge e ps p))).sum))) := by
  have hlen : 0 < ps.length := List.length_pos.mpr hne
  refine ⟨mergeBase_eq ps, fun p => challenge_scalar_128_eq e _ h128, ?_⟩
  simp only [vrfs_merge, if_pos hlen]
  rw [vrfsMergeGo_input_sum e _ ps h128, vrfsMergeGo_output_sum e _ ps h128]
  rfl

/-- Claim C3 witness: the step characterization at the concrete engine
and a one-element list. -/
theorem vrfs_merge_steps_witness :
    mergeBase [VRFInOut.mk (VRFInput.mk 2) (VRFOutput.mk (1 : ZMod 5))]
      = TOp.new "MergeVRFs" ::
          ([VRFInOut.mk (VRFInput.mk 2) (VRFOutput.mk (1 : ZMod 5))]).flatMap
            (fun p => [TOp.commitPoint "vrf-in" p.input.pt,
                       TOp.commitPoint "vrf-out" p.output.pt])
    ∧ (∀ p : VRFInOut (ZMod 5),
        challenge_scalar_128 egW
            (p.commit (mergeBase [VRFInOut.mk (VRFInput.mk 2) (VRFOutput.mk (1 : ZMod 5))]))
          = some (mergeChallenge egW
              [VRFInOut.mk (VRFInput.mk 2) (VRFOutput.mk (1 : ZMod 5))] p))
    ∧ vrfs_merge egW [VRFInOut.mk (VRFInput.mk 2) (VRFOutput.mk (1 : ZMod 5))]
        = MergeOutcome.ok
            (VRFInOut.mk
              (VRFInput.mk ((([VRFInOut.mk (VRFInput.mk 2) (VRFOutput.mk (1 : ZMod 5))]).map
                (fun p => pointMul egW p.input.pt
                  (mergeChallenge egW
                    [VRFInOut.mk (VRFInput.mk 2) (VRFOutput.mk (1 : ZMod 5))] p))).sum))
              (VRFOutput.mk ((([VRFInOut.mk (VRFInput.mk 2) (VRFOutput.mk (1 : ZMod 5))]).map
                (fun p => pointMul egW p.output.pt
                  (mergeChallenge egW
                    [VRFInOut.mk (VRFInput.mk 2) (VRFOutput.mk (1 : ZMod 5))] p))).sum))) :=
  vrfs_merge_steps egW [VRFInOut.mk (VRFInput.mk 2) (VRFOutput.mk (1 : ZMod 5))]
    (by decide) (by decide)

/-- Claim C1: whenever every pair of the list satisfies
output = input times the secret scalar and vrfs_merge returns a merged
pair, that merged pair satisfies the same relation: the random linear
combination uses the same challenge z for the input sum and the output
sum, so linearity carries the relation through. -/
theorem vrfs_merge_linear (e : JubjubEngine P) (sk : SecretKey e.r)
    (ps : List (VRFInOut P)) (hne : ps ≠ [])
    (hrel : ∀ p ∈ ps, p.output.pt = pointMul e p.input.pt sk.key)
    (io : VRFInOut P) (hok : vrfs_merge e ps = MergeOutcome.ok io) :
    io.output.pt = pointMul e io.input.pt sk.key := by
  have hlen : 0 < ps.length := List.length_pos.mpr hne
  rw [show vrfs_merge e ps
      = (match vrfsMergeGo e (mergeBase ps) ps true,
               vrfsMergeGo e (mergeBase ps) ps false with
         | some i, some o =>
             MergeOutcome.ok (VRFInOut.mk (VRFInput.mk i) (VRFOutput.mk o))
         | _, _ => MergeOutcome.panicked)
      from by simp only [vrfs_merge, if_pos hlen]] at hok
  have hfalse := vrfsMergeGo_false_eq e (mergeBase ps) sk.key ps hrel
  cases hti : vrfsMergeGo e (mergeBase ps) ps true with
  | none =>
      rw [hti] at hfalse
      simp only [Option.map_none'] at hfalse
      rw [hti, hfalse] at hok
      simp at hok
  | some i =>
      rw [hti] at hfalse
      simp only [Option.map_some'] at hfalse
      rw [hti, hfalse] at hok
      simp only [] at hok
      obtain rfl := (MergeOutcome.ok.inj hok).symm
      simp [pointMul]

/-- Claim C1 witness: at the concrete engine, a one-element list whose
pair satisfies the relation under the secret scalar 3 merges to the
concrete pair (0, 0), which satisfies the relation as well. -/
theorem vrfs_merge_linear_witness :
    (VRFInOut.mk (VRFInput.mk 0) (VRFOutput.mk (0 : ZMod 5))).output.pt
      = pointMul egW
          (VRFInOut.mk (VRFInput.mk 0) (VRFOutput.mk (0 : ZMod 5))).input.pt
          ((SecretKey.mk (3 : ZMod rFs)).key) :=
  vrfs_merge_linear egW (SecretKey.mk (3 : ZMod rFs))
    [VRFInOut.mk (VRFInput.mk 2) (VRFOutput.mk (1 : ZMod 5))]
    (by decide) (by decide)
    (VRFInOut.mk (VRFInput.mk 0) (VRFOutput.mk (0 : ZMod 5))) (by decide)

/-- Claim C4: new_nonmalleable is exactly the malleable derivation run
on the transcript extended with the public-key commitment under label
"vrf-nm-pk" — so whenever the malleable derivation separates those two
transcript states (the cryptographic collision-freeness assumption on
the external hash-to-point pipeline, stated as the hypothesis), the two
modes yield different VRFInput points from an identical transcript; and
two runs of new_nonmalleable on the same transcript and the same public
key yield identical points. -/
theorem new_nonmalleable_modes (e : JubjubEngine P) (t : Transcript P)
    (pk : PublicKey P)
    (hdist : VRFInput.new_malleable e (t ++ [TOp.commitPoint "vrf-nm-pk" pk.pt])
      ≠ VRFInput.new_malleable e t) :
    VRFInput.new_nonmalleable e t pk
      = VRFInput.new_malleable e (t ++ [TOp.commitPoint "vrf-nm-pk" pk.pt])
    ∧ VRFInput.new_nonmalleable e t pk ≠ VRFInput.new_malleable e t
    ∧ ∀ (t' : Transcript P) (pk' : PublicKey P), t' = t → pk' = pk →
        VRFInput.new_nonmalleable e t' pk' = VRFInput.new_nonmalleable e t pk := by
  refine ⟨rfl, hdist, ?_⟩
  rintro t' pk' rfl rfl
  rfl

/-- Claim C4 witness: at the concrete engine (whose challenge bytes
depend on the transcript length), the empty transcript and the public
key 1 give different points in the two modes. -/
theorem new_nonmalleable_modes_witness :
    VRFInput.new_nonmalleable egW ([] : Transcript (ZMod 5)) (PublicKey.mk 1)
      ≠ VRFInput.new_malleable egW ([] : Transcript (ZMod 5)) :=
  (new_nonmalleable_modes egW [] (PublicKey.mk 1) (by decide)).2.1

/-- Claim C7: make_bytes opens a fresh transcript labelled "VRFResult",
appends the context, commits the pair's input and output points under
labels "vrf-in" and "vrf-out", and squeezes the requested number of
challenge bytes — a composition of deterministic operations, so it is a
pure function of the pair and the context: two calls with identical
arguments return identical bytes. -/
theorem make_bytes_deterministic (e : JubjubEngine P) (p : VRFInOut P)
    (context : List (Fin 256)) (n : Nat) :
    VRFInOut.make_bytes e p context n
      = e.challengeBytes
          [TOp.new "VRFResult", TOp.appendMessage "" context,
           TOp.commitPoint "vrf-in" p.input.pt,
           TOp.commitPoint "vrf-out" p.output.pt] "" n
    ∧ ∀ (p' : VRFInOut P) (context' : List (Fin 256)),
        p' = p → context' = context →
        VRFInOut.make_bytes e p' context' n = VRFInOut.make_bytes e p context n := by
  refine ⟨rfl, ?_⟩
  rintro p' c' rfl rfl
  rfl

/-- Claim C7 witness: the structural equation and two-run determinism at
the concrete engine, the pair (2, 1), context byte 9 and width 4. -/
theorem make_bytes_deterministic_witness :
    VRFInOut.make_bytes egW (VRFInOut.mk (VRFInput.mk 2) (VRFOutput.mk (1 : ZMod 5)))
        [(9 : Fin 256)] 4
      = egW.challengeBytes
          [TOp.new "VRFResult", TOp.appendMessage "" [(9 : Fin 256)],
           TOp.commitPoint "vrf-in" (2 : ZMod 5),
           TOp.commitPoint "vrf-out" (1 : ZMod 5)] "" 4
    ∧ VRFInOut.make_bytes egW (VRFInOut.mk (VRFInput.mk 2) (VRFOutput.mk (1 : ZMod 5)))
        [(9 : Fin 256)] 4
      = VRFInOut.make_bytes egW (VRFInOut.mk (VRFInput.mk 2) (VRFOutput.mk (1 : ZMod 5)))
        [(9 : Fin 256)] 4 := by
  have h := make_bytes_deterministic egW
    (VRFInOut.mk (VRFInput.mk 2) (VRFOutput.mk (1 : ZMod 5))) [(9 : Fin 256)] 4
  exact ⟨h.1, h.2 _ _ rfl rfl⟩

/-- Claim C9: VRFOutput::read accepts exactly the byte strings the
curve library's decoder accepts (it returns a decode failure exactly
when the decoder does, never substituting a default point, and wraps
exactly the decoded point), and — under the decoder/encoder canonicity
of the external codec, stated as the hypothesis — writing a
successfully read output reproduces the input bytes exactly. -/
theorem vrf_output_round_trip (e : JubjubEngine P)
    (hcanon : ∀ b p, e.pointRead b = some p → e.pointWrite p = b)
    (b : List (Fin 256)) :
    (∀ o : VRFOutput P, VRFOutput.read e b = some o →
        VRFOutput.write e o = b ∧ e.pointRead b = some o.pt)
    ∧ (VRFOutput.read e b = none ↔ e.pointRead b = none) := by
  constructor
  · intro o ho
    simp only [VRFOutput.read] at ho
    cases hp : e.pointRead b with
    | none => rw [hp] at ho; simp at ho
    | some q =>
        rw [hp] at ho
        simp only [Option.map_some'] at ho
        obtain rfl := Option.some.inj ho
        exact ⟨hcanon b q hp, rfl⟩
  · simp only [VRFOutput.read]
    cases e.pointRead b <;> simp

/-- Claim C9 witness: at the concrete engine (whose codec is canonical,
as proved), the valid one-byte encoding 3 reads back as the point 3 and
writes back to the same bytes. -/
theorem vrf_output_round_trip_witness :
    VRFOutput.write egW (VRFOutput.mk (3 : ZMod 5)) = [(3 : Fin 256)]
    ∧ egW.pointRead [(3 : Fin 256)] = some ((VRFOutput.mk (3 : ZMod 5)).pt) :=
  (vrf_output_round_trip egW egW_canonical [(3 : Fin 256)]).1
    (VRFOutput.mk (3 : ZMod 5)) (by decide)

/-- Claim C5: ring_vrf_sign_after_check computes the VRFInOut first and
runs the check on it; when the check yields no extra message the result
is Ok(None) for every possible proving backend — so the backend's proof
generation is never invoked — and when the check yields an extra
message, the result is exactly the proof for that pair and message
(output component plus proof), as produced by ring_vrf_prove. -/
theorem ring_vrf_sign_after_check_gate {Sib PK Pf SErr Rng : Type}
    (e : JubjubEngine P) (rng0 : Rng) (sk : SecretKey e.r)
    (input : VRFInput P) (check : VRFInOut P → Option (Transcript P))
    (auth_path : AuthPath Sib) (proving_key : PK) :
    (check (input.to_inout e sk) = none →
      ∀ backend : RingVRF P e.r Sib → PK → Rng → Except SErr Pf,
        ring_vrf_sign_after_check e backend rng0 sk input check auth_path proving_key
          = Except.ok none)
    ∧ (∀ (extra : Transcript P)
         (backend : RingVRF P e.r Sib → PK → Rng → Except SErr Pf),
        check (input.to_inout e sk) = some extra →
        ring_vrf_sign_after_check e backend rng0 sk input check auth_path proving_key
          = Except.map (fun proof => some ((input.to_inout e sk).output, proof))
              (ring_vrf_prove e backend sk input extra auth_path proving_key rng0)) := by
  constructor
  · intro hnone backend
    simp only [ring_vrf_sign_after_check, hnone]
  · intro extra backend hsome
    have hsome' : check (VRFInOut.mk input (input.to_output e sk)) = some extra := hsome
    simp only [ring_vrf_sign_after_check, VRFInput.to_inout, hsome',
      ring_vrf_sign_checked]
    cases ring_vrf_prove e backend sk input extra auth_path proving_key rng0 <;> rfl

/-- Claim C5 witness: at the concrete engine, with a check returning no
extra message and a backend that always fails, the result is still
Ok(None): the failing backend was never invoked. -/
theorem ring_vrf_sign_after_check_gate_witness :
    ring_vrf_sign_after_check egW
      ((fun _ _ _ => Except.error 9) :
        RingVRF (ZMod 5) egW.r Nat → Nat → Nat → Except Nat Nat)
      (0 : Nat) (SecretKey.mk (3 : ZMod rFs)) (VRFInput.mk 2)
      (fun _ => none) [(0 : Nat)] (0 : Nat)
      = Except.ok none :=
  (ring_vrf_sign_after_check_gate egW (0 : Nat) (SecretKey.mk (3 : ZMod rFs))
      (VRFInput.mk 2) (fun _ => none) [(0 : Nat)] (0 : Nat)).1 rfl
    (fun _ _ _ => Except.error 9)

/-- Claim C6: ring_vrf_prove hands the backend the circuit instance
whose vrf_input witness is the supplied input point with cofactor
clearing re-applied, whose extra witness is the scalar squeezed from the
extra transcript under label "extra-msg", and whose witness fields
(secret key, input point, extra scalar, auth path) are all Some; and
whatever SynthesisError the backend returns propagates unchanged. -/
theorem ring_vrf_prove_instance {Sib PK Pf SErr Rng : Type}
    (e : JubjubEngine P)
    (backend : RingVRF P e.r Sib → PK → Rng → Except SErr Pf)
    (sk : SecretKey e.r) (vrf_input : VRFInput P) (extra : Transcript P)
    (auth_path : AuthPath Sib) (proving_key : PK) (rng : Rng) :
    ring_vrf_prove e backend sk vrf_input extra auth_path proving_key rng
      = backend
          (RingVRF.mk auth_path.length (some sk)
            (some (mulByCofactor e vrf_input.pt))
            (some (e.challengeScalar extra "extra-msg"))
            (some auth_path)) proving_key rng
    ∧ ∀ err : SErr,
        backend
          (RingVRF.mk auth_path.length (some sk)
            (some (mulByCofactor e vrf_input.pt))
            (some (e.challengeScalar extra "extra-msg"))
            (some auth_path)) proving_key rng = Except.error err →
        ring_vrf_prove e backend sk vrf_input extra auth_path proving_key rng
          = Except.error err :=
  ⟨rfl, fun _ h => h⟩

/-- Claim C6 witness: with a backend that returns the error 7, the error
propagates unchanged through ring_vrf_prove. -/
theorem ring_vrf_prove_instance_witness :
    ring_vrf_prove egW
      ((fun _ _ _ => Except.error 7) :
        RingVRF (ZMod 5) egW.r Nat → Nat → Nat → Except Nat Nat)
      (SecretKey.mk (3 : ZMod rFs)) (VRFInput.mk 2) [] [(0 : Nat)]
      (0 : Nat) (0 : Nat)
      = Except.error 7 :=
  (ring_vrf_prove_instance egW
      ((fun _ _ _ => Except.error 7) :
        RingVRF (ZMod 5) egW.r Nat → Nat → Nat → Except Nat Nat)
      (SecretKey.mk (3 : ZMod rFs)) (VRFInput.mk 2) [] [(0 : Nat)]
      (0 : Nat) (0 : Nat)).2 7 rfl

/-- Claim C8: generate_crs instantiates the Ring VRF circuit with the
given depth and every witness field unset (None), and returns exactly
the result of the external backend's parameter generation run on that
instance with the supplied randomness source. -/
theorem generate_crs_spec {r : Nat} {Sib Crs SErr Rng : Type}
    (backendGen : RingVRF P r Sib → Rng → Except SErr Crs) (rng : Rng)
    (depth : Nat) :
    generate_crs backendGen rng depth
      = backendGen (RingVRF.mk depth none none none none) rng
    ∧ (RingVRF.mk depth (none : Option (SecretKey r)) (none : Option P)
        (none : Option (ZMod r)) (none : Option (AuthPath Sib))).depth = depth
    ∧ (RingVRF.mk depth (none : Option (SecretKey r)) (none : Option P)
        (none : Option (ZMod r)) (none : Option (AuthPath Sib))).sk = none :=
  ⟨rfl, rfl, rfl⟩
